import Mathlib

/-!
# Scratch_Train.cpp: shallow embedding and verified properties

The micro:bit program translates Scratch Link BLE frames into DCC++ serial
commands and reports DCC++ sensor replies back to Scratch.  This file embeds
the `ScratchService` class and the free functions `clean` / `sendToScratch`
of `Scratch_Train.cpp` and proves properties of them.

Modelling conventions

* `uint8_t` is `Fin 256`; `int` is `Int`, with the additions that can leave
  the 32-bit range wrapped by `int32` (two's complement, as on the Cortex-M0
  target).
* A `uint8_t *` is the function giving the byte at each offset.
* C arrays are functions on `Fin n`; an index computed at run time is checked
  against the array bounds and an out-of-bounds access is a `Fault`.
* `ManagedString` values are Lean strings, one character per byte; `char`
  is unsigned, as on the ARM target.
* Calls into the micro:bit runtime (display, message bus) are recorded as a
  list of `Effect`s in program order.
-/

namespace ScratchTrain

/-! ## Machine types -/

/-- An unsigned byte. -/
abbrev uint8_t := Fin 256

/-- Two's-complement reduction of an integer to the 32-bit `int` range. -/
def int32 (x : Int) : Int := (x + 2147483648) % 4294967296 - 2147483648

/-- The run-time errors of the embedding: each is undefined behaviour in C++. -/
inductive Fault where
  /-- A read of `functionTable` outside its 32 rows or 4 columns. -/
  | tableIndexOutOfBounds
  /-- A write to `functionGroups` outside its 3 x 5 cells. -/
  | groupIndexOutOfBounds
  /-- The local `command` buffer is returned without having been written. -/
  | uninitialisedCommand
  deriving DecidableEq, Repr

/-- The conversion `%d` of `sprintf` applied to an `int`. -/
def sprintf_d (v : Int) : String :=
  match v with
  | Int.ofNat n => Nat.repr n
  | Int.negSucc n => "-" ++ Nat.repr (n + 1)

/-! ## `functionTable` -/

/-- The table `functionTable[32][4]`, row by row as in the source. -/
def functionTable : List (List Int) :=
  [ [0, 0, 0, 0],      -- 0
    [0, 0, 0, 0],      -- 1
    [0, 0, 0, 0],      -- 2
    [0, 0, 0, 0],      -- 3
    [0, 0, 0, 0],      -- 4
    [128, 16, 0, 4],   -- 5  F0 on
    [128, 0, 0, 4],    -- 6  F0 off
    [128, 1, 0, 0],    -- 7  F1 on
    [128, 0, 0, 0],    -- 8  F1 off
    [128, 2, 0, 1],    -- 9  F2 on
    [128, 0, 0, 1],    -- 10 F2 off
    [128, 4, 0, 2],    -- 11 F3 on
    [128, 0, 0, 2],    -- 12 F3 off
    [128, 8, 0, 3],    -- 13 F4 on
    [128, 0, 0, 3],    -- 14 F4 off
    [176, 1, 1, 0],    -- 15 F5 on
    [176, 0, 1, 0],    -- 16 F5 off
    [176, 2, 1, 1],    -- 17 F6 on
    [176, 0, 1, 1],    -- 18 F6 off
    [176, 4, 1, 2],    -- 19 F7 on
    [176, 0, 1, 2],    -- 20 F7 off
    [176, 8, 1, 3],    -- 21 F8 on
    [176, 0, 1, 3],    -- 22 F8 off
    [160, 1, 2, 0],    -- 23 F9 on
    [160, 0, 2, 0],    -- 24 F9 off
    [160, 2, 2, 1],    -- 25 F10 on
    [160, 0, 2, 1],    -- 26 F10 off
    [160, 4, 2, 2],    -- 27 F11 on
    [160, 0, 2, 2],    -- 28 F11 off
    [160, 8, 2, 3],    -- 29 F12 on
    [160, 0, 2, 3],    -- 30 F12 off
    [0, 0, 0, 0] ]     -- 31 reserved.

/-- The read `functionTable[row][col]`, checked against the table bounds. -/
def tableAt (row col : Nat) : Except Fault Int :=
  match functionTable[row]? with
  | none => .error .tableIndexOutOfBounds
  | some r =>
    match r[col]? with
    | none => .error .tableIndexOutOfBounds
    | some v => .ok v

/-! ## `ScratchService` -/

/-- The data members of `ScratchService` that the member functions use. -/
structure ScratchService where
  txData : Fin 20 → uint8_t
  txCharacteristicHandle : Nat
  rxCharacteristicHandle : Nat
  sensors : Fin 5 → uint8_t
  command : String
  functionGroups : Fin 3 → Fin 5 → Int

/-- The assignment `a[i] = v` on an array modelled as a function. -/
def arraySet {n : Nat} {α : Type} (a : Fin n → α) (i : Fin n) (v : α) : Fin n → α :=
  fun j => if j = i then v else a j

/-- The assignment `functionGroups[g][p] = v`, checked against the bounds
3 and 5 of the array. -/
def writeGroup (fg : Fin 3 → Fin 5 → Int) (g p v : Int) :
    Except Fault (Fin 3 → Fin 5 → Int) :=
  if h : (0 ≤ g ∧ g < 3) ∧ (0 ≤ p ∧ p < 5) then
    let gi : Fin 3 := ⟨g.toNat, by omega⟩
    let pi : Fin 5 := ⟨p.toNat, by omega⟩
    .ok (arraySet fg gi (arraySet (fg gi) pi v))
  else
    .error .groupIndexOutOfBounds

/-- The read `functionGroups[g][i]` for `i` the loop counter of `buildCommand`;
`g` has passed the bounds check of the preceding write. -/
def readGroup (fg : Fin 3 → Fin 5 → Int) (g : Int) (i : Fin 5) : Int :=
  if h : 0 ≤ g ∧ g < 3 then fg ⟨g.toNat, by omega⟩ i else 0

/-- The member function `setSensor`. -/
def setSensor (s : ScratchService) (sensor : Int) : ScratchService :=
  match sensor with
  | 0 => { s with sensors := arraySet s.sensors 2 1 }   -- pin 0
  | 1 => { s with sensors := arraySet s.sensors 3 1 }   -- pin 1
  | 2 => { s with sensors := arraySet s.sensors 4 1 }   -- pin 2
  | 3 => { s with sensors := arraySet s.sensors 0 1 }   -- Button A
  | 4 => { s with sensors := arraySet s.sensors 1 1 }   -- Button B
  | _ => s

/-- The member function `getCommand`. -/
def getCommand (s : ScratchService) : String := s.command

/-- The member function `buildCommand`: the command text and the service
after the call. -/
def buildCommand (s : ScratchService) (data : Nat → uint8_t) :
    Except Fault (String × ScratchService) :=
  let address : Int := (data 2).val
  let speed : Int := (data 3).val * 4
  if (data 1).val < 5 then
    match (data 1).val with
    | 0 => .ok ("<t 1 " ++ sprintf_d address ++ " 0 0>", s)
    | 1 => .ok ("<t 1 " ++ sprintf_d address ++ " " ++ sprintf_d speed ++ " 1>", s)
    | 2 => .ok ("<t 1 " ++ sprintf_d address ++ " " ++ sprintf_d speed ++ " 0>", s)
    | 3 => .ok ("<a " ++ sprintf_d address ++ " 0 0>", s)
    | 4 => .ok ("<a " ++ sprintf_d address ++ " 0 1>", s)
    | _ => .error .uninitialisedCommand
  else do
    let functionCommand : Nat := (data 1).val
    let functionCode ← tableAt functionCommand 0
    let groupValue ← tableAt functionCommand 1
    let groupNumber ← tableAt functionCommand 2
    let groupPosition ← tableAt functionCommand 3
    let functionGroups ← writeGroup s.functionGroups groupNumber groupPosition groupValue
    let functionCode := (List.finRange 5).foldl
      (fun code i => int32 (code + readGroup functionGroups groupNumber i)) functionCode
    .ok ("<f " ++ sprintf_d address ++ " " ++ sprintf_d functionCode ++ ">",
      { s with functionGroups := functionGroups })

/-- The argument of the BLE write callback: the handle written to, and the
pointer to and length of the bytes written. -/
structure GattWriteCallbackParams where
  handle : Nat
  len : Nat
  data : Nat → uint8_t

/-- The calls that leave the service, in program order. -/
inductive Effect where
  /-- The call `uBit.display.scroll(text, delay)`. -/
  | scroll (text : String) (delay : Int)
  /-- The call `uBit.display.stopAnimation()`. -/
  | stopAnimation
  /-- The call `uBit.display.image.setPixelValue(x, y, value)`. -/
  | setPixelValue (x y : Int) (value : uint8_t)
  /-- The construction `MicroBitEvent ev(source, value)`, which fires the event. -/
  | event (source value : Nat)
  /-- The call `uBit.ble->gattServer().notify(handle, buffer, size)`. -/
  | gattNotify (handle : Nat) (buffer : List uint8_t)
  deriving DecidableEq

/-- The constant `SCRATCH_ID`. -/
def SCRATCH_ID : Nat := 2000
/-- The constant `SCRATCH_EVT_NOTIFY`. -/
def SCRATCH_EVT_NOTIFY : Nat := 1
/-- The constant `SCRATCH_TRAIN_ID`. -/
def SCRATCH_TRAIN_ID : Nat := 2001
/-- The constant `SCRATCH_TRAIN_EVT_INPUT`. -/
def SCRATCH_TRAIN_EVT_INPUT : Nat := 1

/-- The constructor `ManagedString(const char *)`: the bytes before the first
NUL, one character each. -/
def managedString (text : List uint8_t) : String :=
  String.mk ((text.takeWhile (fun b => b ≠ 0)).map (fun b => Char.ofNat b.val))

/-- The bytes `data[1] .. data[len - 1]` that `memcpy` copies into `text`;
`text[len - 1]` is then set to NUL, which ends the string. -/
def memcpyText (p : GattWriteCallbackParams) : List uint8_t :=
  (List.range (p.len - 1)).map (fun i => p.data (i + 1))

/-- The pixel loop of `onDataWritten`: for `y` from 1 below `len` and `x` from
0 below 5, `setPixelValue(x, y - 1, (data[y] & (0x01 << x)) ? 255 : 0)`. -/
def pixelWrites (p : GattWriteCallbackParams) : List Effect :=
  (List.range' 1 (p.len - 1)).flatMap fun y =>
    (List.range 5).map fun x =>
      Effect.setPixelValue (x : Nat) ((y : Int) - 1)
        (if (p.data y).val &&& ((0x01 : Nat) <<< x) ≠ 0 then 255 else 0)

/-- The member function `onDataWritten`: the service after the call and the
calls made during it. -/
def onDataWritten (s : ScratchService) (parms : GattWriteCallbackParams) :
    Except Fault (ScratchService × List Effect) :=
  let data := parms.data
  if parms.handle = s.rxCharacteristicHandle ∧ parms.len > 0 then
    if (data 0).val = 0x81 then
      let command := managedString (memcpyText parms)
      .ok ({ s with command := command },
        [Effect.event SCRATCH_TRAIN_ID SCRATCH_TRAIN_EVT_INPUT, Effect.scroll command 120])
    else if (data 0).val = 0x82 then do
      let (command, s) ← buildCommand s data
      .ok ({ s with command := command },
        [Effect.stopAnimation, Effect.event SCRATCH_TRAIN_ID SCRATCH_TRAIN_EVT_INPUT]
          ++ pixelWrites parms)
    else
      .ok (s, [])
  else
    .ok (s, [])

/-- The member function `setBuffer`. -/
def setBuffer (s : ScratchService) (buff : Fin 20 → uint8_t) : Fin 20 → uint8_t :=
  let buff := (List.finRange 20).foldl (fun b i => arraySet b i 0) buff
  (List.finRange 5).foldl
    (fun b i => arraySet b ⟨i.val + 4, by omega⟩ (s.sensors i)) buff

/-- The member function `clearSensors`. -/
def clearSensors (s : ScratchService) : ScratchService :=
  { s with sensors := (List.finRange 5).foldl (fun a i => arraySet a i 0) s.sensors }

/-- The member function `notify`; `connected` is what
`uBit.ble->getGapState().connected` reports. -/
def notify (s : ScratchService) (connected : Bool) : ScratchService × List Effect :=
  if connected then
    let s := { s with txData := setBuffer s s.txData }
    (clearSensors s,
      [Effect.gattNotify s.txCharacteristicHandle ((List.finRange 20).map s.txData)])
  else
    (clearSensors s, [])

/-! ## The serial side -/

/-- The constant `ON`. -/
def ON : Int := 1

/-- The constant `OFF`. -/
def OFF : Int := 0

/-- The globals that the event handlers share: the service that
`scratchService` points to and the flag `lock`. -/
structure Globals where
  scratchService : ScratchService
  lock : Int

/-- The handler `onScratchMessage`: the globals after the call and the texts
passed to `uBit.serial.send`, in order. -/
def onScratchMessage (g : Globals) : Globals × List String :=
  if g.lock = OFF then
    let g := { g with lock := ON }
    let sent := [getCommand g.scratchService]
    let g := { g with lock := OFF }
    (g, sent)
  else
    (g, [])

/-! ## Inputs for the worked examples -/

/-- The buffer holding the given bytes, followed by zero bytes. -/
def bytes (l : List uint8_t) : Nat → uint8_t := fun i => l.getD i 0

/-- A write of the given bytes to the characteristic with the given handle. -/
def writeOf (handle : Nat) (l : List uint8_t) : GattWriteCallbackParams :=
  { handle := handle, len := l.length, data := bytes l }

/-- The service as the constructor leaves it: `functionGroups` all zero and
`command` empty, the other members as given. -/
def construct (txData : Fin 20 → uint8_t) (sensors : Fin 5 → uint8_t)
    (txHandle rxHandle : Nat) : ScratchService :=
  { txData := txData, txCharacteristicHandle := txHandle,
    rxCharacteristicHandle := rxHandle, sensors := sensors, command := "",
    functionGroups := fun _ _ => 0 }

/-- A freshly constructed service with handles 1 and 2 and zeroed arrays. -/
def service0 : ScratchService := construct (fun _ => 0) (fun _ => 0) 1 2

/-- Decoding a sequence of frames with `buildCommand`, one after the other:
the texts returned, in order, and the service at the end. -/
def decodeAll (s : ScratchService) :
    List (Nat → uint8_t) → Except Fault (List String × ScratchService)
  | [] => .ok ([], s)
  | data :: rest => do
    let (text, s) ← buildCommand s data
    let (texts, s) ← decodeAll s rest
    .ok (text :: texts, s)

/-- The entry `functionTable[selector][col]`, 0 outside the table. -/
def column (selector col : Nat) : Int :=
  (functionTable.getD selector []).getD col 0

/-- The feature F0 .. F12 that a selector in 5 .. 30 toggles: selectors
5 and 6 are F0, 7 and 8 are F1, and so on. -/
def featureOf (selector : Nat) : Nat := (selector - 5) / 2

/-- The selectors that switch a feature on are the odd ones. -/
def isOnSelector (selector : Nat) : Bool := selector % 2 = 1

/-- Whether the most recent toggle of feature `f` in the sequence of
selectors is an "on"; false when the feature is never toggled. -/
def lastToggleOn (selectors : List Nat) (f : Nat) : Bool :=
  match (selectors.filter (fun selector => featureOf selector = f)).getLast? with
  | some selector => isOnSelector selector
  | none => false

/-- The bit value of feature `f`: column 1 of the row of its "on" selector. -/
def featureBit (f : Nat) : Int := column (5 + 2 * f) 1

/-- The group of feature `f`: column 2 of the row of its "on" selector. -/
def featureGroup (f : Nat) : Int := column (5 + 2 * f) 2

/-- The cell of `functionGroups` that the rows of feature `f` name. -/
def featureCell (f : Nat) : Fin 3 × Fin 5 :=
  (Fin.ofNat (column (5 + 2 * f) 2).toNat, Fin.ofNat (column (5 + 2 * f) 3).toNat)

/-- The code expected from accumulation after the selectors
`selectors`, the last of which is `last`: the group base of `last` plus the
bit values of the features of that group whose most recent toggle is "on". -/
def expectedCode (selectors : List Nat) (last : Nat) : Int :=
  column last 0 +
    ((List.range 13).map fun f =>
      if featureGroup f = column last 2 ∧ lastToggleOn selectors f = true
      then featureBit f else 0).sum

/-- The service after F0 has been switched on from `service0`. -/
def serviceF0on : ScratchService :=
  { service0 with
    functionGroups := fun g p => if g = 0 ∧ p = 4 then 16 else 0 }

/-- The service after F1 has been switched on from `service0`. -/
def serviceF1on : ScratchService :=
  { service0 with
    functionGroups := fun g p => if g = 0 ∧ p = 0 then 1 else 0 }

deriving instance DecidableEq for Except

/-- The accumulator agrees with the toggles `selectors`: the cell of each
feature F0 .. F12 holds the feature's bit value if its most recent toggle is
"on" and 0 otherwise, the two cells that no feature owns hold 0, and every
cell lies between 0 and 16. -/
def CellsMatch (selectors : List Nat) (fg : Fin 3 → Fin 5 → Int) : Prop :=
  (∀ f, f < 13 → fg (featureCell f).1 (featureCell f).2 =
    if lastToggleOn selectors f = true then featureBit f else 0) ∧
  fg 1 4 = 0 ∧ fg 2 4 = 0 ∧ ∀ g p, 0 ≤ fg g p ∧ fg g p ≤ 16

/-- The accumulators that can arise: the all-zero one of the constructor, and
the one that `buildCommand` leaves when it is called with a selector byte
0 .. 31 on a service whose accumulator can arise. -/
inductive ReachableGroups : (Fin 3 → Fin 5 → Int) → Prop where
  | zero : ReachableGroups (fun _ _ => 0)
  | step (s s' : ScratchService) (data : Nat → uint8_t) (text : String) :
    ReachableGroups s.functionGroups → (data 1).val ≤ 31 →
    buildCommand s data = .ok (text, s') → ReachableGroups s'.functionGroups

/-! ## Auxiliary facts -/

theorem finRange5 : List.finRange 5 = [0, 1, 2, 3, 4] := by rfl

theorem finRange20 :
    List.finRange 20 =
      [0, 1, 2, 3, 4, 5, 6, 7, 8, 9, 10, 11, 12, 13, 14, 15, 16, 17, 18, 19] := by rfl

theorem sprintf_d_natCast (n : Nat) : sprintf_d (n : Int) = Nat.repr n := rfl

theorem int32_eq_self (x : Int) (h : -2147483648 ≤ x ∧ x < 2147483648) : int32 x = x := by
  unfold int32; omega

/-- The five wrapped additions of the summing loop are exact when the
base and the slots are small. -/
theorem int32_sum5 (base a b c d e : Int) (hbase : 0 ≤ base ∧ base ≤ 176)
    (ha : -268435456 ≤ a ∧ a ≤ 268435456) (hb : -268435456 ≤ b ∧ b ≤ 268435456)
    (hc : -268435456 ≤ c ∧ c ≤ 268435456) (hd : -268435456 ≤ d ∧ d ≤ 268435456)
    (he : -268435456 ≤ e ∧ e ≤ 268435456) :
    int32 (int32 (int32 (int32 (int32 (base + a) + b) + c) + d) + e)
      = base + (a + b + c + d + e) := by
  rw [int32_eq_self (base + a) (by omega), int32_eq_self (base + a + b) (by omega),
    int32_eq_self (base + a + b + c) (by omega), int32_eq_self (base + a + b + c + d) (by omega),
    int32_eq_self (base + a + b + c + d + e) (by omega)]
  omega

theorem tableAt_of_row {row : Nat} {a b c d : Int}
    (h : functionTable[row]? = some [a, b, c, d]) :
    tableAt row 0 = .ok a ∧ tableAt row 1 = .ok b ∧
      tableAt row 2 = .ok c ∧ tableAt row 3 = .ok d := by
  simp [tableAt, h]

theorem tableAt_of_ge {row : Nat} (h : 32 ≤ row) (col : Nat) :
    tableAt row col = .error .tableIndexOutOfBounds := by
  have : functionTable[row]? = none := List.getElem?_eq_none (by simpa [functionTable] using h)
  simp [tableAt, this]

/-- Every row 5 .. 30 of the table, in terms of the feature it toggles. -/
theorem functionTable_feature_rows :
    ∀ sel ∈ List.range' 5 26,
      functionTable[sel]? = some
        [column sel 0, if isOnSelector sel = true then featureBit (featureOf sel) else 0,
          ((featureCell (featureOf sel)).1.val : Int),
          ((featureCell (featureOf sel)).2.val : Int)] ∧
      (column sel 0 = 128 ∨ column sel 0 = 176 ∨ column sel 0 = 160) ∧
      column sel 2 = featureGroup (featureOf sel) ∧
      featureGroup (featureOf sel) = ((featureCell (featureOf sel)).1.val : Int) := by
  decide

theorem functionTable_feature_row (sel : Nat) (h5 : 5 ≤ sel) (h30 : sel ≤ 30) :
    functionTable[sel]? = some
        [column sel 0, if isOnSelector sel = true then featureBit (featureOf sel) else 0,
          ((featureCell (featureOf sel)).1.val : Int),
          ((featureCell (featureOf sel)).2.val : Int)] ∧
      (column sel 0 = 128 ∨ column sel 0 = 176 ∨ column sel 0 = 160) ∧
      column sel 2 = featureGroup (featureOf sel) ∧
      featureGroup (featureOf sel) = ((featureCell (featureOf sel)).1.val : Int) :=
  functionTable_feature_rows sel (by rw [List.mem_range'_1]; omega)

/-- The bit values of the thirteen features lie between 0 and 16. -/
theorem featureBit_bounds : ∀ f ∈ List.range 13, 0 ≤ featureBit f ∧ featureBit f ≤ 16 := by
  decide

/-- Distinct features own distinct cells, and no feature owns slot 4 of
group 1 or of group 2. -/
theorem featureCell_injective :
    ∀ f ∈ List.range 13, ∀ f' ∈ List.range 13, featureCell f = featureCell f' → f = f' := by
  decide

/-- The motion and accessory branch of `buildCommand`. -/
theorem buildCommand_lt5 (s : ScratchService) (data : Nat → uint8_t)
    (h : (data 1).val ≤ 4) :
    buildCommand s data = .ok
      (if (data 1).val = 0 then "<t 1 " ++ Nat.repr (data 2).val ++ " 0 0>"
        else if (data 1).val = 1 then
          "<t 1 " ++ Nat.repr (data 2).val ++ " " ++ Nat.repr ((data 3).val * 4) ++ " 1>"
        else if (data 1).val = 2 then
          "<t 1 " ++ Nat.repr (data 2).val ++ " " ++ Nat.repr ((data 3).val * 4) ++ " 0>"
        else if (data 1).val = 3 then "<a " ++ Nat.repr (data 2).val ++ " 0 0>"
        else "<a " ++ Nat.repr (data 2).val ++ " 0 1>", s) := by
  have hs : ((data 3).val : Int) * 4 = (((data 3).val * 4 : Nat) : Int) := by push_cast; rfl
  unfold buildCommand
  simp only [hs, sprintf_d_natCast]
  generalize (data 1).val = sel at h ⊢
  interval_cases sel <;> simp

/-- The feature branch of `buildCommand` for a selector whose table row is known. -/
theorem buildCommand_of_row (s : ScratchService) (data : Nat → uint8_t)
    {base bit : Int} {g : Fin 3} {p : Fin 5}
    (hsel : 5 ≤ (data 1).val)
    (hrow : functionTable[(data 1).val]? = some [base, bit, (g.val : Int), (p.val : Int)]) :
    buildCommand s data =
      .ok ("<f " ++ Nat.repr (data 2).val ++ " " ++
          sprintf_d (int32 (int32 (int32 (int32 (int32
            (base + arraySet s.functionGroups g (arraySet (s.functionGroups g) p bit) g 0)
            + arraySet s.functionGroups g (arraySet (s.functionGroups g) p bit) g 1)
            + arraySet s.functionGroups g (arraySet (s.functionGroups g) p bit) g 2)
            + arraySet s.functionGroups g (arraySet (s.functionGroups g) p bit) g 3)
            + arraySet s.functionGroups g (arraySet (s.functionGroups g) p bit) g 4)) ++ ">",
        { s with functionGroups :=
            arraySet s.functionGroups g (arraySet (s.functionGroups g) p bit) }) := by
  obtain ⟨h0, h1, h2, h3⟩ := tableAt_of_row hrow
  have hg : (0 : Int) ≤ g.val ∧ (g.val : Int) < 3 := by omega
  have hp : (0 : Int) ≤ p.val ∧ (p.val : Int) < 5 := by omega
  unfold buildCommand
  rw [if_neg (by omega)]
  simp only [h0, h1, h2, h3, writeGroup, readGroup, hg, hp, finRange5, sprintf_d_natCast]
  simp [bind, Except.bind]


/-! ## Accumulation over a sequence of feature toggles -/

theorem lastToggleOn_append (selectors : List Nat) (sel f : Nat) :
    lastToggleOn (selectors ++ [sel]) f =
      if featureOf sel = f then isOnSelector sel else lastToggleOn selectors f := by
  unfold lastToggleOn
  by_cases h : featureOf sel = f
  · simp [List.filter_append, h]
  · simp [List.filter_append, h]

theorem range13 : List.range 13 = [0, 1, 2, 3, 4, 5, 6, 7, 8, 9, 10, 11, 12] := by rfl

/-- No feature owns slot 4 of group 1 or of group 2. -/
theorem featureCell_ne_spare :
    ∀ f ∈ List.range 13, featureCell f ≠ (1, 4) ∧ featureCell f ≠ (2, 4) := by
  decide

/-- Under `CellsMatch` the five slots of a group add up to the bit values of
the features of that group that are on. -/
theorem cellsMatch_sum (selectors : List Nat) (fg : Fin 3 → Fin 5 → Int)
    (h : CellsMatch selectors fg) (g : Fin 3) :
    fg g 0 + fg g 1 + fg g 2 + fg g 3 + fg g 4 =
      ((List.range 13).map fun f =>
        if featureGroup f = (g.val : Int) ∧ lastToggleOn selectors f = true
        then featureBit f else 0).sum := by
  obtain ⟨hc, h14, h24, -⟩ := h
  have h0 : fg 0 4 = _ := hc 0 (by decide)
  have h1 : fg 0 0 = _ := hc 1 (by decide)
  have h2 : fg 0 1 = _ := hc 2 (by decide)
  have h3 : fg 0 2 = _ := hc 3 (by decide)
  have h4 : fg 0 3 = _ := hc 4 (by decide)
  have h5 : fg 1 0 = _ := hc 5 (by decide)
  have h6 : fg 1 1 = _ := hc 6 (by decide)
  have h7 : fg 1 2 = _ := hc 7 (by decide)
  have h8 : fg 1 3 = _ := hc 8 (by decide)
  have h9 : fg 2 0 = _ := hc 9 (by decide)
  have h10 : fg 2 1 = _ := hc 10 (by decide)
  have h11 : fg 2 2 = _ := hc 11 (by decide)
  have h12 : fg 2 3 = _ := hc 12 (by decide)
  have e0 : featureGroup 0 = 0 := by rfl
  have e1 : featureGroup 1 = 0 := by rfl
  have e2 : featureGroup 2 = 0 := by rfl
  have e3 : featureGroup 3 = 0 := by rfl
  have e4 : featureGroup 4 = 0 := by rfl
  have e5 : featureGroup 5 = 1 := by rfl
  have e6 : featureGroup 6 = 1 := by rfl
  have e7 : featureGroup 7 = 1 := by rfl
  have e8 : featureGroup 8 = 1 := by rfl
  have e9 : featureGroup 9 = 2 := by rfl
  have e10 : featureGroup 10 = 2 := by rfl
  have e11 : featureGroup 11 = 2 := by rfl
  have e12 : featureGroup 12 = 2 := by rfl
  rw [range13]
  simp only [List.map_cons, List.map_nil, List.sum_cons, List.sum_nil,
    e0, e1, e2, e3, e4, e5, e6, e7, e8, e9, e10, e11, e12]
  fin_cases g
  · simp [h0, h1, h2, h3, h4]; ring
  · simp [h5, h6, h7, h8, h14]; ring
  · simp [h9, h10, h11, h12, h24]; ring


/-- Storing the bit value of a toggle in the cell of its feature keeps the
accumulator in agreement with the toggles seen. -/
theorem cellsMatch_step (selectors : List Nat) (fg : Fin 3 → Fin 5 → Int) (sel : Nat)
    (h5 : 5 ≤ sel) (h30 : sel ≤ 30) (h : CellsMatch selectors fg) :
    CellsMatch (selectors ++ [sel])
      (arraySet fg (featureCell (featureOf sel)).1
        (arraySet (fg (featureCell (featureOf sel)).1) (featureCell (featureOf sel)).2
          (if isOnSelector sel = true then featureBit (featureOf sel) else 0))) := by
  obtain ⟨hc, h14, h24, hb⟩ := h
  have hf : featureOf sel < 13 := by unfold featureOf; omega
  have hmem : featureOf sel ∈ List.range 13 := List.mem_range.mpr hf
  have hbit := featureBit_bounds (featureOf sel) hmem
  obtain ⟨hs1, hs2⟩ := featureCell_ne_spare (featureOf sel) hmem
  have hval : ∀ g p, arraySet fg (featureCell (featureOf sel)).1
        (arraySet (fg (featureCell (featureOf sel)).1) (featureCell (featureOf sel)).2
          (if isOnSelector sel = true then featureBit (featureOf sel) else 0)) g p =
      if (g, p) = featureCell (featureOf sel) then
        (if isOnSelector sel = true then featureBit (featureOf sel) else 0)
      else fg g p := by
    intro g p
    unfold arraySet
    by_cases e : (g, p) = featureCell (featureOf sel)
    · have hg : g = (featureCell (featureOf sel)).1 := congrArg Prod.fst e
      have hp : p = (featureCell (featureOf sel)).2 := congrArg Prod.snd e
      rw [if_pos e, if_pos hg, if_pos hp]
    · rw [if_neg e]
      by_cases hg : g = (featureCell (featureOf sel)).1
      · have hp : ¬ p = (featureCell (featureOf sel)).2 := fun hp => e (Prod.ext hg hp)
        rw [if_pos hg, if_neg hp, hg]
      · rw [if_neg hg]
  refine ⟨?_, ?_, ?_, ?_⟩
  · intro f hf13
    rw [hval, lastToggleOn_append]
    by_cases e : featureOf sel = f
    · subst e
      simp
    · have hne : ¬ ((featureCell f).1, (featureCell f).2) = featureCell (featureOf sel) := by
        intro e2
        exact e (featureCell_injective f (List.mem_range.mpr hf13) (featureOf sel) hmem e2).symm
      rw [if_neg hne, if_neg e]
      exact hc f hf13
  · rw [hval, if_neg (fun e => hs1 e.symm)]; exact h14
  · rw [hval, if_neg (fun e => hs2 e.symm)]; exact h24
  · intro g p
    rw [hval]
    have := hb g p
    split
    · split <;> omega
    · exact this

/-- One feature frame decoded in an accumulator that agrees with the toggles
seen so far: the code sent is the expected one and the agreement persists. -/
theorem buildCommand_cellsMatch (selectors : List Nat) (s : ScratchService)
    (data : Nat → uint8_t) (h5 : 5 ≤ (data 1).val) (h30 : (data 1).val ≤ 30)
    (h : CellsMatch selectors s.functionGroups) :
    ∃ fg, buildCommand s data = .ok
        ("<f " ++ Nat.repr (data 2).val ++ " " ++
          sprintf_d (expectedCode (selectors ++ [(data 1).val]) (data 1).val) ++ ">",
          { s with functionGroups := fg }) ∧
      CellsMatch (selectors ++ [(data 1).val]) fg := by
  obtain ⟨hrow, hbase, hcol, hgrp⟩ := functionTable_feature_row (data 1).val h5 h30
  have hstep := cellsMatch_step selectors s.functionGroups (data 1).val h5 h30 h
  rw [buildCommand_of_row s data h5 hrow]
  have hb := hstep.2.2.2
  rw [int32_sum5 _ _ _ _ _ _ (by omega)
    (by have := hb (featureCell (featureOf (data 1).val)).1 0; omega)
    (by have := hb (featureCell (featureOf (data 1).val)).1 1; omega)
    (by have := hb (featureCell (featureOf (data 1).val)).1 2; omega)
    (by have := hb (featureCell (featureOf (data 1).val)).1 3; omega)
    (by have := hb (featureCell (featureOf (data 1).val)).1 4; omega)]
  rw [cellsMatch_sum _ _ hstep]
  refine ⟨_, ?_, hstep⟩
  unfold expectedCode
  rw [hcol, hgrp]

theorem decodeAll_snoc (s : ScratchService) (frames : List (Nat → uint8_t))
    (data : Nat → uint8_t) :
    ∀ (texts : List String) (s1 s2 : ScratchService) (text : String),
      decodeAll s frames = .ok (texts, s1) → buildCommand s1 data = .ok (text, s2) →
      decodeAll s (frames ++ [data]) = .ok (texts ++ [text], s2) := by
  induction frames generalizing s with
  | nil =>
    intro texts s1 s2 text h1 h2
    simp only [decodeAll, Except.ok.injEq, Prod.mk.injEq] at h1
    obtain ⟨rfl, rfl⟩ := h1
    simp [decodeAll, h2, bind, Except.bind]
  | cons d rest ih =>
    intro texts s1 s2 text h1 h2
    simp only [decodeAll, List.cons_append] at h1 ⊢
    cases hb : buildCommand s d with
    | error e => simp [hb, bind, Except.bind] at h1
    | ok r =>
      obtain ⟨t0, s0⟩ := r
      cases hr : decodeAll s0 rest with
      | error e => simp [hb, hr, bind, Except.bind] at h1
      | ok r2 =>
        obtain ⟨ts, s3⟩ := r2
        simp only [hb, hr, bind, Except.bind, Except.ok.injEq, Prod.mk.injEq] at h1
        obtain ⟨rfl, rfl⟩ := h1
        simp [hb, ih s0 ts s3 s2 text hr h2, bind, Except.bind]

/-- Decoding feature frames keeps the accumulator in agreement with the
toggles, and returns one text per frame. -/
theorem decodeAll_cellsMatch (frames : List (Nat → uint8_t)) :
    ∀ (selectors : List Nat) (s : ScratchService),
      CellsMatch selectors s.functionGroups →
      (∀ d ∈ frames, 5 ≤ (d 1).val ∧ (d 1).val ≤ 30) →
      ∃ texts s', decodeAll s frames = .ok (texts, s') ∧ texts.length = frames.length ∧
        CellsMatch (selectors ++ frames.map (fun d => (d 1).val)) s'.functionGroups := by
  induction frames with
  | nil =>
    intro selectors s h _
    exact ⟨[], s, rfl, rfl, by simpa using h⟩
  | cons d rest ih =>
    intro selectors s h hr
    obtain ⟨fg, hb, hm⟩ := buildCommand_cellsMatch selectors s d
      (hr d (List.mem_cons_self _ _)).1 (hr d (List.mem_cons_self _ _)).2 h
    obtain ⟨texts, s2, hd, hl, hm2⟩ := ih (selectors ++ [(d 1).val])
      { s with functionGroups := fg } hm
      (fun x hx => hr x (List.mem_cons_of_mem _ hx))
    refine ⟨("<f " ++ Nat.repr (d 2).val ++ " " ++
        sprintf_d (expectedCode (selectors ++ [(d 1).val]) (d 1).val) ++ ">") :: texts, s2,
      ?_, by simp [hl], by simpa using hm2⟩
    simp [decodeAll, hb, hd, bind, Except.bind]

theorem cellsMatch_zero (fg : Fin 3 → Fin 5 → Int) (h : ∀ g p, fg g p = 0) :
    CellsMatch [] fg := by
  refine ⟨fun f _ => ?_, h 1 4, h 2 4, fun g p => by rw [h g p]; omega⟩
  rw [h]; rfl

/-- C3: after any sequence of feature-toggle frames (selectors 5 .. 30)
decoded from the all-zero accumulator, the text returned for the last frame
is `<f ADDR CODE>` with CODE the group base of that frame plus the bit values
of the features of its group whose most recent toggle in the sequence is
"on". -/
theorem decodeAll_last_code (s : ScratchService) (frames : List (Nat → uint8_t))
    (data : Nat → uint8_t) (hzero : ∀ g p, s.functionGroups g p = 0)
    (hsel : ∀ d ∈ frames ++ [data], 5 ≤ (d 1).val ∧ (d 1).val ≤ 30) :
    ∃ texts s', decodeAll s (frames ++ [data]) = .ok (texts, s') ∧
      texts.length = frames.length + 1 ∧
      texts.getLast? = some
        ("<f " ++ Nat.repr (data 2).val ++ " " ++
          sprintf_d (expectedCode ((frames ++ [data]).map (fun d => (d 1).val)) (data 1).val)
          ++ ">") := by
  obtain ⟨texts, s1, hd, hl, hm⟩ := decodeAll_cellsMatch frames [] s (cellsMatch_zero _ hzero)
    (fun d hd => hsel d (List.mem_append_left _ hd))
  have hlast := hsel data (List.mem_append_right _ (List.mem_singleton_self _))
  obtain ⟨fg, hb, -⟩ := buildCommand_cellsMatch _ s1 data hlast.1 hlast.2 hm
  refine ⟨_, _, decodeAll_snoc s frames data texts s1 _ _ hd hb, by simp [hl], ?_⟩
  simp

/-- C3, worked example: F1 on, F3 on, F1 off (selectors 7, 11, 8) from the
all-zero accumulator end with the text `<f 3 132>`. -/
theorem decodeAll_last_code_witness :
    ∃ texts s', decodeAll service0
        ([bytes [0x82, 7, 3], bytes [0x82, 11, 3]] ++ [bytes [0x82, 8, 3]]) = .ok (texts, s') ∧
      texts.length = 3 ∧ texts.getLast? = some "<f 3 132>" := by
  obtain ⟨texts, s', h1, h2, h3⟩ := decodeAll_last_code service0
    [bytes [0x82, 7, 3], bytes [0x82, 11, 3]] (bytes [0x82, 8, 3]) (fun _ _ => rfl)
    (by
      intro d hd
      simp only [List.cons_append, List.nil_append, List.mem_cons, List.mem_singleton,
        List.not_mem_nil, or_false] at hd
      rcases hd with rfl | rfl | rfl <;> decide)
  exact ⟨texts, s', h1, h2, h3.trans (by rfl)⟩


/-! ## Motion, accessory and function commands -/

/-- C1: for a frame whose selector byte is 0 .. 4, `buildCommand` returns the
text of the template of that selector, with the address byte and four times
the speed byte in decimal, and leaves the service as it was. -/
theorem buildCommand_motion_accessory (s : ScratchService) (data : Nat → uint8_t)
    (h : (data 1).val ≤ 4) :
    buildCommand s data = .ok
      (if (data 1).val = 0 then "<t 1 " ++ Nat.repr (data 2).val ++ " 0 0>"
        else if (data 1).val = 1 then
          "<t 1 " ++ Nat.repr (data 2).val ++ " " ++ Nat.repr ((data 3).val * 4) ++ " 1>"
        else if (data 1).val = 2 then
          "<t 1 " ++ Nat.repr (data 2).val ++ " " ++ Nat.repr ((data 3).val * 4) ++ " 0>"
        else if (data 1).val = 3 then "<a " ++ Nat.repr (data 2).val ++ " 0 0>"
        else "<a " ++ Nat.repr (data 2).val ++ " 0 1>", s) :=
  buildCommand_lt5 s data h

/-- C1, worked example: the frame `[0x82, 1, 7, 10]` yields `<t 1 7 40 1>`. -/
theorem buildCommand_motion_accessory_witness :
    buildCommand service0 (bytes [0x82, 1, 7, 10]) = .ok ("<t 1 7 40 1>", service0) :=
  (buildCommand_motion_accessory service0 (bytes [0x82, 1, 7, 10]) (by decide)).trans (by rfl)

/-- C2: for every accumulator and a selector in 5 .. 30, `buildCommand` stores
the bit value of the selector's table row in the slot that the row names and
returns `<f ADDR CODE>`, where CODE is the group base of the row plus the five
slots of that group after the store, added in `int` arithmetic; when the slots
are small enough for that sum not to overflow, CODE is the exact sum. -/
theorem buildCommand_function (s : ScratchService) (data : Nat → uint8_t)
    (h5 : 5 ≤ (data 1).val) (h30 : (data 1).val ≤ 30) :
    ∃ (groupBase bitValue : Int) (g : Fin 3) (p : Fin 5),
      functionTable[(data 1).val]? = some [groupBase, bitValue, (g.val : Int), (p.val : Int)] ∧
      ∃ (fg : Fin 3 → Fin 5 → Int) (code : Int),
        fg = arraySet s.functionGroups g (arraySet (s.functionGroups g) p bitValue) ∧
        code = int32 (int32 (int32 (int32 (int32
          (groupBase + fg g 0) + fg g 1) + fg g 2) + fg g 3) + fg g 4) ∧
        buildCommand s data = .ok
          ("<f " ++ Nat.repr (data 2).val ++ " " ++ sprintf_d code ++ ">",
            { s with functionGroups := fg }) ∧
        ((∀ g p, -268435456 ≤ s.functionGroups g p ∧ s.functionGroups g p ≤ 268435456) →
          code = groupBase + (fg g 0 + fg g 1 + fg g 2 + fg g 3 + fg g 4)) := by
  obtain ⟨hrow, hbase, -, -⟩ := functionTable_feature_row (data 1).val h5 h30
  refine ⟨_, _, _, _, hrow, _, _, rfl, rfl, buildCommand_of_row s data h5 hrow, ?_⟩
  intro hs
  have hbit : 0 ≤ (if isOnSelector (data 1).val = true
      then featureBit (featureOf (data 1).val) else 0) ∧
      (if isOnSelector (data 1).val = true
        then featureBit (featureOf (data 1).val) else 0) ≤ 16 := by
    have := featureBit_bounds (featureOf (data 1).val)
      (by rw [List.mem_range]; unfold featureOf; omega)
    split <;> omega
  have hcell : ∀ q, -268435456 ≤ arraySet s.functionGroups (featureCell (featureOf (data 1).val)).1
      (arraySet (s.functionGroups (featureCell (featureOf (data 1).val)).1)
        (featureCell (featureOf (data 1).val)).2
        (if isOnSelector (data 1).val = true then featureBit (featureOf (data 1).val) else 0))
      (featureCell (featureOf (data 1).val)).1 q ∧
      arraySet s.functionGroups (featureCell (featureOf (data 1).val)).1
      (arraySet (s.functionGroups (featureCell (featureOf (data 1).val)).1)
        (featureCell (featureOf (data 1).val)).2
        (if isOnSelector (data 1).val = true then featureBit (featureOf (data 1).val) else 0))
      (featureCell (featureOf (data 1).val)).1 q ≤ 268435456 := by
    intro q
    have hq := hs (featureCell (featureOf (data 1).val)).1 q
    simp only [arraySet, if_true]
    split <;> omega
  rw [int32_sum5 _ _ _ _ _ _ (by omega) (hcell 0) (hcell 1) (hcell 2) (hcell 3) (hcell 4)]

/-- C2, worked example: after `[0x82, 5, 3]` from the all-zero state the
frame `[0x82, 7, 3]` returns `<f 3 145>`. -/
theorem buildCommand_function_witness :
    (∃ s, buildCommand service0 (bytes [0x82, 5, 3]) = .ok ("<f 3 144>", s) ∧
      s.functionGroups = serviceF0on.functionGroups) ∧
    ∃ s, buildCommand serviceF0on (bytes [0x82, 7, 3]) = .ok ("<f 3 145>", s) := by
  constructor
  · refine ⟨_, rfl, ?_⟩
    funext g p; fin_cases g <;> fin_cases p <;> rfl
  · obtain ⟨groupBase, bitValue, g, p, hrow, fg, code, hfg, -, h, hcode⟩ :=
      buildCommand_function serviceF0on (bytes [0x82, 7, 3]) (by decide) (by decide)
    have hsum := hcode (by decide)
    have hr : [groupBase, bitValue, (g.val : Int), (p.val : Int)] = [128, 1, 0, 0] := by
      have : functionTable[(bytes [0x82, 7, 3] 1).val]? = some [128, 1, 0, 0] := by rfl
      rw [this] at hrow
      exact (Option.some.inj hrow).symm
    simp only [List.cons.injEq, and_true] at hr
    obtain ⟨rfl, rfl, hg, hp⟩ := hr
    have hg0 : g = 0 := by apply Fin.ext; simpa using hg
    have hp0 : p = 0 := by apply Fin.ext; simpa using hp
    subst hg0 hp0 hfg hsum
    exact ⟨_, h.trans (by rfl)⟩

/-- C4: a selector byte up to 31 is decoded without leaving the table or the
accumulator, but a selector byte of 32 or more takes the feature branch and
reads `functionTable` outside its 32 rows. -/
theorem buildCommand_selector_bounds (s : ScratchService) (data : Nat → uint8_t) :
    ((data 1).val ≤ 31 → ∃ r, buildCommand s data = .ok r) ∧
    (32 ≤ (data 1).val → buildCommand s data = .error .tableIndexOutOfBounds) := by
  constructor
  · intro h
    by_cases h5 : (data 1).val < 5
    · exact ⟨_, buildCommand_lt5 s data (by omega)⟩
    · by_cases h31 : (data 1).val = 31
      · have hrow : functionTable[(data 1).val]? =
            some [0, 0, ((0 : Fin 3).val : Int), ((0 : Fin 5).val : Int)] := by
          rw [h31]; rfl
        exact ⟨_, buildCommand_of_row s data (by omega) hrow⟩
      · obtain ⟨hrow, -⟩ := functionTable_feature_row (data 1).val (by omega) (by omega)
        exact ⟨_, buildCommand_of_row s data (by omega) hrow⟩
  · intro h
    unfold buildCommand
    rw [if_neg (by omega)]
    simp [tableAt_of_ge h, bind, Except.bind]

/-- C4, failing input: the frame `[0x82, 32, 3, 0]` makes `buildCommand` read
row 32 of the 32-row table. -/
theorem buildCommand_selector_bounds_witness :
    buildCommand service0 (bytes [0x82, 32, 3, 0]) = .error .tableIndexOutOfBounds :=
  (buildCommand_selector_bounds service0 (bytes [0x82, 32, 3, 0])).2 (by decide)

/-- C9: a frame with selector 31 takes the feature branch with the all-zero
row: it stores 0 in slot 0 of group 0, the slot of F1, and returns a function
command built from base 0. -/
theorem buildCommand_selector31 (s : ScratchService) (data : Nat → uint8_t)
    (h : (data 1).val = 31) :
    ∃ text s', buildCommand s data = .ok (text, s') ∧
      s'.functionGroups = arraySet s.functionGroups 0 (arraySet (s.functionGroups 0) 0 0) ∧
      s'.functionGroups 0 0 = 0 := by
  have hrow : functionTable[(data 1).val]? =
      some [0, 0, ((0 : Fin 3).val : Int), ((0 : Fin 5).val : Int)] := by
    rw [h]; rfl
  exact ⟨_, _, buildCommand_of_row s data (by omega) hrow, rfl, by simp [arraySet]⟩

/-- C9, failing input: with F1 on (slot 0 of group 0 holds 1, as after the
frame `[0x82, 7, 3]`), the frame `[0x82, 31, 3]` leaves that slot 0. -/
theorem buildCommand_selector31_witness :
    (∃ s, buildCommand service0 (bytes [0x82, 7, 3]) = .ok ("<f 3 129>", s) ∧
      s.functionGroups = serviceF1on.functionGroups) ∧
    serviceF1on.functionGroups 0 0 = 1 ∧
    ∃ text s', buildCommand serviceF1on (bytes [0x82, 31, 3]) = .ok (text, s') ∧
      s'.functionGroups = arraySet serviceF1on.functionGroups 0
        (arraySet (serviceF1on.functionGroups 0) 0 0) ∧
      s'.functionGroups 0 0 = 0 :=
  ⟨⟨_, rfl, by funext g p; fin_cases g <;> fin_cases p <;> rfl⟩, rfl,
    buildCommand_selector31 serviceF1on (bytes [0x82, 31, 3]) rfl⟩

/-- C10: the first three columns of the table, selector by selector:
all-zero rows for 0 .. 4 and 31; base 128 and group 0 with bit values
16,0,1,0,2,0,4,0,8,0 for 5 .. 14; base 176 and group 1 with 1,0,2,0,4,0,8,0
for 15 .. 22; base 160 and group 2 with 1,0,2,0,4,0,8,0 for 23 .. 30; odd
selectors carry a power of two and even selectors carry 0. -/
theorem functionTable_entries :
    functionTable.map (List.take 3) =
      List.replicate 5 [0, 0, 0]
        ++ [16, 0, 1, 0, 2, 0, 4, 0, 8, 0].map (fun bitValue => [128, bitValue, 0])
        ++ [1, 0, 2, 0, 4, 0, 8, 0].map (fun bitValue => [176, bitValue, 1])
        ++ [1, 0, 2, 0, 4, 0, 8, 0].map (fun bitValue => [160, bitValue, 2])
        ++ [[0, 0, 0]] ∧
    (List.range' 5 26).all (fun selector =>
      if selector % 2 = 1 then
        decide (tableAt selector 1 ∈ [Except.ok 1, .ok 2, .ok 4, .ok 8, .ok 16])
      else decide (tableAt selector 1 = .ok 0)) = true := by
  decide


/-! ## Sensor flags and the outbound buffer -/

theorem clearSensors_sensors (s : ScratchService) (k : Fin 5) :
    (clearSensors s).sensors k = 0 := by
  fin_cases k <;> simp [clearSensors, finRange5, arraySet]

/-- Byte by byte, the buffer that `setBuffer` leaves: the five flags at
offsets 4 .. 8 and 0 elsewhere. -/
theorem setBuffer_apply (s : ScratchService) (buff : Fin 20 → uint8_t) (j : Fin 20) :
    setBuffer s buff j =
      if h : 4 ≤ j.val ∧ j.val ≤ 8 then s.sensors ⟨j.val - 4, by omega⟩ else 0 := by
  fin_cases j <;> rfl

/-- C5 as the code has it: from cleared flags, `setSensor(i)` for `i` in
0 .. 4 followed by `setBuffer` gives 1 at offset `4 + (i + 2) % 5` (the
buffer order is button A, button B, pin 0, pin 1, pin 2) and 0 at the other
offsets 4 .. 8; after `clearSensors` alone the offsets 4 .. 8 are all 0. -/
theorem setSensor_setBuffer (s : ScratchService) (buff : Fin 20 → uint8_t) (i : Nat)
    (hi : i ≤ 4) :
    (∀ j : Fin 20, 4 ≤ j.val → j.val ≤ 8 →
      setBuffer (setSensor (clearSensors s) (i : Int)) buff j
        = if j.val = 4 + (i + 2) % 5 then 1 else 0) ∧
    (∀ j : Fin 20, 4 ≤ j.val → j.val ≤ 8 → setBuffer (clearSensors s) buff j = 0) := by
  constructor
  · intro j h4 h8
    rw [setBuffer_apply, dif_pos ⟨h4, h8⟩]
    interval_cases i <;> fin_cases j <;>
      simp [setSensor, arraySet, clearSensors_sensors] at h4 h8 ⊢
  · intro j h4 h8
    rw [setBuffer_apply, dif_pos ⟨h4, h8⟩, clearSensors_sensors]

/-- C5, worked example: `setSensor(2)` then `setBuffer` gives 1 at offset 8
and 0 at offsets 4, 5, 6 and 7. -/
theorem setSensor_setBuffer_witness :
    setBuffer (setSensor (clearSensors service0) 2) (fun _ => 7) 8 = 1 ∧
    setBuffer (setSensor (clearSensors service0) 2) (fun _ => 7) 4 = 0 ∧
    setBuffer (setSensor (clearSensors service0) 2) (fun _ => 7) 5 = 0 ∧
    setBuffer (setSensor (clearSensors service0) 2) (fun _ => 7) 6 = 0 ∧
    setBuffer (setSensor (clearSensors service0) 2) (fun _ => 7) 7 = 0 :=
  have h := (setSensor_setBuffer service0 (fun _ => 7) 2 (by decide)).1
  ⟨h 8 (by decide) (by decide), h 4 (by decide) (by decide), h 5 (by decide) (by decide),
    h 6 (by decide) (by decide), h 7 (by decide) (by decide)⟩

/-- C5 as stated fails: from cleared flags, `setSensor(2)` then `setBuffer`
leaves offset `4 + 2` at 0 and sets offset 8. -/
theorem sensor2_not_at_offset6 :
    ¬ (setBuffer (setSensor (clearSensors service0) 2) (fun _ => 7) 6 = 1 ∧
        setBuffer (setSensor (clearSensors service0) 2) (fun _ => 7) 4 = 0 ∧
        setBuffer (setSensor (clearSensors service0) 2) (fun _ => 7) 5 = 0 ∧
        setBuffer (setSensor (clearSensors service0) 2) (fun _ => 7) 7 = 0 ∧
        setBuffer (setSensor (clearSensors service0) 2) (fun _ => 7) 8 = 0) := by
  decide

/-! ## Frames written by Scratch -/

/-- C8: a write of length 0, a write whose first byte is neither 0x81 nor
0x82, and a write to another handle than the RX characteristic leave the
service as it was and make no call to the display or the message bus. -/
theorem onDataWritten_ignored (s : ScratchService) (parms : GattWriteCallbackParams)
    (h : parms.len = 0 ∨ ((parms.data 0).val ≠ 0x81 ∧ (parms.data 0).val ≠ 0x82) ∨
      parms.handle ≠ s.rxCharacteristicHandle) :
    onDataWritten s parms = .ok (s, []) := by
  unfold onDataWritten
  rcases h with h | ⟨h1, h2⟩ | h
  · rw [if_neg (by omega)]
  · split
    · rw [if_neg h1, if_neg h2]
    · rfl
  · rw [if_neg (by tauto)]

/-- C8, worked examples: an empty write, a write with opcode 0x80 and a
write of a text frame to handle 3 are ignored by `service0`, whose RX handle
is 2. -/
theorem onDataWritten_ignored_witness :
    onDataWritten service0 (writeOf 2 []) = .ok (service0, []) ∧
    onDataWritten service0 (writeOf 2 [0x80, 72, 105]) = .ok (service0, []) ∧
    onDataWritten service0 (writeOf 3 [0x81, 72, 105]) = .ok (service0, []) :=
  ⟨onDataWritten_ignored service0 (writeOf 2 []) (Or.inl rfl),
    onDataWritten_ignored service0 (writeOf 2 [0x80, 72, 105]) (Or.inr (Or.inl (by decide))),
    onDataWritten_ignored service0 (writeOf 3 [0x81, 72, 105]) (Or.inr (Or.inr (by decide)))⟩

theorem managedString_of_nonzero (text : List uint8_t) (h : ∀ b ∈ text, b ≠ 0) :
    managedString text = String.mk (text.map (fun b => Char.ofNat b.val)) := by
  unfold managedString
  rw [List.takeWhile_eq_self_iff.mpr (by simpa using h)]

/-- C7: a write to the RX characteristic with opcode 0x81, length at least 1
and printable ASCII after the opcode makes `command` the characters after the
opcode, `len - 1` of them in order, changes no other member, and makes no
call but the event and the scroll of that text. -/
theorem onDataWritten_text (s : ScratchService) (parms : GattWriteCallbackParams)
    (hh : parms.handle = s.rxCharacteristicHandle) (hl : 1 ≤ parms.len)
    (hop : (parms.data 0).val = 0x81)
    (hpr : ∀ i, 1 ≤ i → i < parms.len →
      0x20 ≤ (parms.data i).val ∧ (parms.data i).val ≤ 0x7E) :
    ∃ text : String,
      text.data = (List.range (parms.len - 1)).map
        (fun i => Char.ofNat (parms.data (i + 1)).val) ∧
      text.length = parms.len - 1 ∧
      onDataWritten s parms = .ok ({ s with command := text },
        [Effect.event SCRATCH_TRAIN_ID SCRATCH_TRAIN_EVT_INPUT, Effect.scroll text 120]) := by
  have hz : ∀ b ∈ memcpyText parms, b ≠ 0 := by
    intro b hb
    simp only [memcpyText, List.mem_map, List.mem_range] at hb
    obtain ⟨i, hi, rfl⟩ := hb
    have := hpr (i + 1) (by omega) (by omega)
    intro h0
    rw [h0] at this
    simp at this
  refine ⟨managedString (memcpyText parms), ?_, ?_, ?_⟩
  · rw [managedString_of_nonzero _ hz]; simp [memcpyText]
  · rw [managedString_of_nonzero _ hz]; simp [memcpyText, String.length]
  · unfold onDataWritten
    rw [if_pos ⟨hh, by omega⟩, if_pos hop]

/-- C7, worked example: the write `[0x81, 'H', 'i']` makes `command` the text
`Hi` and leaves `functionGroups` as it was. -/
theorem onDataWritten_text_witness :
    ∃ text : String, text = "Hi" ∧
      onDataWritten service0 (writeOf 2 [0x81, 72, 105]) =
        .ok ({ service0 with command := text },
          [Effect.event SCRATCH_TRAIN_ID SCRATCH_TRAIN_EVT_INPUT, Effect.scroll text 120]) := by
  obtain ⟨text, hd, -, h⟩ := onDataWritten_text service0 (writeOf 2 [0x81, 72, 105]) rfl
    (by decide) (by decide) (by
      intro i h1 h2
      have h3 : i < 3 := h2
      interval_cases i <;> decide)
  refine ⟨text, ?_, h⟩
  apply String.ext
  rw [hd]
  rfl


/-! ## Lines read from DCC++ -/

theorem arraySet_idem {n : Nat} {α : Type} (a : Fin n → α) (i : Fin n) (v : α) :
    arraySet (arraySet a i v) i v = arraySet a i v := by
  funext j
  unfold arraySet
  split <;> rfl

theorem clearSensors_sensors_eq (s : ScratchService) :
    (clearSensors s).sensors = fun _ => 0 :=
  funext (clearSensors_sensors s)

/-- `setBuffer` reads nothing of the service but the flags. -/
theorem setBuffer_congr (s s' : ScratchService) (buff buff' : Fin 20 → uint8_t)
    (h : s'.sensors = s.sensors) : setBuffer s' buff' = setBuffer s buff := by
  funext j
  rw [setBuffer_apply, setBuffer_apply, h]

/-- C11: whatever the buffer held, `setBuffer` leaves 0 in bytes 0 .. 3 and
9 .. 19 and the five flags in bytes 4 .. 8, each 0 or 1 when the flags are;
the result is the same for any service with the same flags and any prior
buffer. -/
theorem setBuffer_frame (s : ScratchService) (buff : Fin 20 → uint8_t)
    (hflags : ∀ k, s.sensors k = 0 ∨ s.sensors k = 1) :
    (∀ j : Fin 20, j.val ≤ 3 → setBuffer s buff j = 0) ∧
    (∀ j : Fin 20, 9 ≤ j.val → setBuffer s buff j = 0) ∧
    (∀ k : Fin 5, setBuffer s buff ⟨k.val + 4, by omega⟩ = s.sensors k ∧
      (setBuffer s buff ⟨k.val + 4, by omega⟩ = 0 ∨
        setBuffer s buff ⟨k.val + 4, by omega⟩ = 1)) ∧
    (∀ (s' : ScratchService) (buff' : Fin 20 → uint8_t), s'.sensors = s.sensors →
      setBuffer s' buff' = setBuffer s buff) := by
  refine ⟨?_, ?_, ?_, fun s' buff' h => setBuffer_congr s s' buff buff' h⟩
  · intro j hj
    rw [setBuffer_apply, dif_neg (by omega)]
  · intro j hj
    rw [setBuffer_apply, dif_neg (by omega)]
  · intro k
    have h : setBuffer s buff ⟨k.val + 4, by omega⟩ = s.sensors k := by
      rw [setBuffer_apply, dif_pos ⟨by simp, by simp; omega⟩]
      simp
    rw [h]
    exact ⟨rfl, hflags k⟩

/-- C11, worked example: with only `sensors[4]` set, a buffer of sevens and a
buffer of nines are both overwritten with 0 everywhere but 1 at offset 8. -/
theorem setBuffer_frame_witness :
    (List.finRange 20).map (setBuffer (setSensor service0 2) (fun _ => 7)) =
      [0, 0, 0, 0, 0, 0, 0, 0, 1, 0, 0, 0, 0, 0, 0, 0, 0, 0, 0, 0] ∧
    setBuffer (setSensor service0 2) (fun _ => 9) =
      setBuffer (setSensor service0 2) (fun _ => 7) :=
  ⟨by decide,
    (setBuffer_frame (setSensor service0 2) (fun _ => 7) (by decide)).2.2.2
      (setSensor service0 2) (fun _ => 9) rfl⟩

/-- C12: one call of `notify` ends with the five flags 0; when connected it
makes the one call `notify(txHandle, txData, 20)` with `txData` holding
`setBuffer` of the flags as they were on entry, and when not connected it
makes no call. -/
theorem notify_clears (s : ScratchService) :
    (∀ connected k, (notify s connected).1.sensors k = 0) ∧
    (notify s true).2 =
      [Effect.gattNotify s.txCharacteristicHandle
        ((List.finRange 20).map (setBuffer s s.txData))] ∧
    (notify s true).1.txData = setBuffer s s.txData ∧
    (notify s false).2 = [] ∧
    (notify s false).1 = clearSensors s := by
  refine ⟨?_, rfl, rfl, rfl, rfl⟩
  intro connected k
  cases connected
  · exact clearSensors_sensors s k
  · exact clearSensors_sensors _ k

/-- C13: with `lock` equal to `ON`, `onScratchMessage` sends nothing and
changes nothing; with `lock` equal to `OFF` it sends the current `command`
once, leaves the service as it was and ends with `lock` equal to `OFF`. -/
theorem onScratchMessage_forward (s : ScratchService) :
    onScratchMessage { scratchService := s, lock := ON } =
      ({ scratchService := s, lock := ON }, []) ∧
    onScratchMessage { scratchService := s, lock := OFF } =
      ({ scratchService := s, lock := OFF }, [s.command]) :=
  ⟨rfl, rfl⟩

/-! ## Setting and clearing flags -/

/-- C15: for an index 0 .. 4, a second `setSensor(i)` changes nothing, so the
frame that `setBuffer` writes is the same after two calls as after one. -/
theorem setSensor_idempotent (s : ScratchService) (i : Int) (h0 : 0 ≤ i) (h4 : i ≤ 4) :
    setSensor (setSensor s i) i = setSensor s i ∧
    ∀ buff, setBuffer (setSensor (setSensor s i) i) buff = setBuffer (setSensor s i) buff := by
  have h : setSensor (setSensor s i) i = setSensor s i := by
    have hi : i = 0 ∨ i = 1 ∨ i = 2 ∨ i = 3 ∨ i = 4 := by omega
    rcases hi with rfl | rfl | rfl | rfl | rfl <;>
      simp only [setSensor, arraySet_idem]
  exact ⟨h, fun buff => by rw [h]⟩

/-- C15, worked example: `setSensor(3)` twice on `service0` is `setSensor(3)`
once. -/
theorem setSensor_idempotent_witness :
    setSensor (setSensor service0 3) 3 = setSensor service0 3 :=
  (setSensor_idempotent service0 3 (by decide) (by decide)).1

/-- C16: after `clearSensors` the five flags are 0 whatever they were, and a
second `clearSensors` leaves the service as the first left it. -/
theorem clearSensors_twice (s : ScratchService) :
    (∀ k, (clearSensors s).sensors k = 0) ∧
    clearSensors (clearSensors s) = clearSensors s := by
  refine ⟨clearSensors_sensors s, ?_⟩
  have h1 := clearSensors_sensors_eq s
  have h2 := clearSensors_sensors_eq (clearSensors s)
  cases s
  simp only [clearSensors] at h1 h2 ⊢
  simp only [ScratchService.mk.injEq, true_and, and_true]
  rw [h2, h1]

/-- C17: for an index below 0 or above 4 no case of the `switch` of
`setSensor` matches, and the service is returned as it was. -/
theorem setSensor_out_of_range (s : ScratchService) (i : Int) (h : i < 0 ∨ 5 ≤ i) :
    setSensor s i = s := by
  unfold setSensor
  split <;> first | omega | rfl

/-- C17, worked examples: `setSensor(-1)` and `setSensor(5)` leave `service0`
as it was. -/
theorem setSensor_out_of_range_witness :
    setSensor service0 (-1) = service0 ∧ setSensor service0 5 = service0 :=
  ⟨setSensor_out_of_range service0 (-1) (Or.inl (by decide)),
    setSensor_out_of_range service0 5 (Or.inr (by decide))⟩


/-! ## What a decode reads and what it changes -/

theorem column_of_row {sel : Nat} {a b c d : Int}
    (h : functionTable[sel]? = some [a, b, c, d]) :
    column sel 0 = a ∧ column sel 1 = b ∧ column sel 2 = c ∧ column sel 3 = d := by
  simp [column, List.getD_eq_getElem?_getD, h]

/-- The feature branch of `buildCommand` for a selector byte 5 .. 31: the
cell written is the one that columns 2 and 3 of the row name, the value
written lies between 0 and 16, and the base lies between 0 and 176. -/
theorem buildCommand_feature (s : ScratchService) (data : Nat → uint8_t)
    (h5 : 5 ≤ (data 1).val) (h31 : (data 1).val ≤ 31) :
    ∃ (g : Fin 3) (p : Fin 5) (bit : Int) (fg : Fin 3 → Fin 5 → Int),
      (g.val : Int) = column (data 1).val 2 ∧ (p.val : Int) = column (data 1).val 3 ∧
      0 ≤ bit ∧ bit ≤ 16 ∧ 0 ≤ column (data 1).val 0 ∧ column (data 1).val 0 ≤ 176 ∧
      fg = arraySet s.functionGroups g (arraySet (s.functionGroups g) p bit) ∧
      buildCommand s data = .ok
        ("<f " ++ Nat.repr (data 2).val ++ " " ++
          sprintf_d (int32 (int32 (int32 (int32 (int32
            (column (data 1).val 0 + fg g 0) + fg g 1) + fg g 2) + fg g 3) + fg g 4)) ++ ">",
          { s with functionGroups := fg }) := by
  by_cases h30 : (data 1).val ≤ 30
  · obtain ⟨hrow, hbase, -, -⟩ := functionTable_feature_row (data 1).val h5 h30
    obtain ⟨-, -, c2, c3⟩ := column_of_row hrow
    have hbit := featureBit_bounds (featureOf (data 1).val)
      (by rw [List.mem_range]; unfold featureOf; omega)
    refine ⟨_, _, _, _, c2.symm, c3.symm, ?_, ?_, by omega, by omega, rfl,
      buildCommand_of_row s data h5 hrow⟩
    · split <;> omega
    · split <;> omega
  · have h : (data 1).val = 31 := by omega
    have hrow : functionTable[(data 1).val]? =
        some [0, 0, ((0 : Fin 3).val : Int), ((0 : Fin 5).val : Int)] := by
      rw [h]; rfl
    have hb := buildCommand_of_row s data h5 hrow
    have hc0 : column (data 1).val 0 = 0 := by rw [h]; rfl
    refine ⟨0, 0, 0, _, by rw [h]; rfl, by rw [h]; rfl, le_refl _, by omega, by omega,
      by omega, rfl, ?_⟩
    rw [hc0]
    exact hb

theorem buildCommand_ge32 (s : ScratchService) (data : Nat → uint8_t)
    (h : 32 ≤ (data 1).val) : buildCommand s data = .error .tableIndexOutOfBounds := by
  unfold buildCommand
  rw [if_neg (by omega)]
  simp [tableAt_of_ge h, bind, Except.bind]

/-- Whatever `buildCommand` returns, the service it returns differs from the
one it was given in `functionGroups` at most. -/
theorem buildCommand_state (s s1 : ScratchService) (data : Nat → uint8_t) (text : String)
    (h : buildCommand s data = .ok (text, s1)) :
    ∃ fg, s1 = { s with functionGroups := fg } := by
  by_cases h5 : (data 1).val < 5
  · rw [buildCommand_lt5 s data (by omega)] at h
    simp only [Except.ok.injEq, Prod.mk.injEq] at h
    exact ⟨s.functionGroups, h.2.symm⟩
  · by_cases h32 : 32 ≤ (data 1).val
    · rw [buildCommand_ge32 s data h32] at h
      cases h
    · obtain ⟨g, p, bit, fg, -, -, -, -, -, -, -, hb⟩ :=
        buildCommand_feature s data (by omega) (by omega)
      rw [hb] at h
      simp only [Except.ok.injEq, Prod.mk.injEq] at h
      exact ⟨fg, h.2.symm⟩

/-- The branch of `onDataWritten` for opcode 0x82. -/
theorem onDataWritten_0x82 (s s1 : ScratchService) (parms : GattWriteCallbackParams)
    (text : String) (hh : parms.handle = s.rxCharacteristicHandle) (hl : 0 < parms.len)
    (hop : (parms.data 0).val = 0x82) (hb : buildCommand s parms.data = .ok (text, s1)) :
    onDataWritten s parms = .ok ({ s1 with command := text },
      [Effect.stopAnimation, Effect.event SCRATCH_TRAIN_ID SCRATCH_TRAIN_EVT_INPUT]
        ++ pixelWrites parms) := by
  unfold onDataWritten
  rw [if_pos ⟨hh, hl⟩, if_neg (by omega), if_pos hop]
  simp [hb, bind, Except.bind]

theorem onDataWritten_0x82_error (s : ScratchService) (parms : GattWriteCallbackParams)
    (err : Fault) (hh : parms.handle = s.rxCharacteristicHandle) (hl : 0 < parms.len)
    (hop : (parms.data 0).val = 0x82) (hb : buildCommand s parms.data = .error err) :
    onDataWritten s parms = .error err := by
  unfold onDataWritten
  rw [if_pos ⟨hh, hl⟩, if_neg (by omega), if_pos hop]
  simp [hb, bind, Except.bind]

/-- The branch of `onDataWritten` for opcode 0x81. -/
theorem onDataWritten_0x81 (s : ScratchService) (parms : GattWriteCallbackParams)
    (hh : parms.handle = s.rxCharacteristicHandle) (hl : 0 < parms.len)
    (hop : (parms.data 0).val = 0x81) :
    onDataWritten s parms = .ok ({ s with command := managedString (memcpyText parms) },
      [Effect.event SCRATCH_TRAIN_ID SCRATCH_TRAIN_EVT_INPUT,
        Effect.scroll (managedString (memcpyText parms)) 120]) := by
  unfold onDataWritten
  rw [if_pos ⟨hh, hl⟩, if_pos hop]

/-- The writes that `onDataWritten` ignores. -/
theorem onDataWritten_other (s : ScratchService) (parms : GattWriteCallbackParams)
    (h : ¬ (parms.handle = s.rxCharacteristicHandle ∧ parms.len > 0) ∨
      ((parms.data 0).val ≠ 0x81 ∧ (parms.data 0).val ≠ 0x82)) :
    onDataWritten s parms = .ok (s, []) := by
  unfold onDataWritten
  rcases h with h | ⟨h1, h2⟩
  · rw [if_neg h]
  · split
    · rw [if_neg h1, if_neg h2]
    · rfl

/-- C14: two frames with the same selector byte and the same address byte are
decoded alike, text and accumulator, whatever their other bytes, when the
selector is 5 .. 30 or is 0, 3 or 4. -/
theorem buildCommand_speed_unused (s : ScratchService) (d1 d2 : Nat → uint8_t)
    (hsel : d1 1 = d2 1) (haddr : d1 2 = d2 2)
    (h : (5 ≤ (d1 1).val ∧ (d1 1).val ≤ 30) ∨
      (d1 1).val = 0 ∨ (d1 1).val = 3 ∨ (d1 1).val = 4) :
    ∃ r, buildCommand s d1 = .ok r ∧ buildCommand s d2 = .ok r := by
  rcases h with ⟨h5, h30⟩ | h
  · obtain ⟨hrow, -⟩ := functionTable_feature_row (d1 1).val h5 h30
    have h1 := buildCommand_of_row s d1 h5 hrow
    have h2 := buildCommand_of_row s d2 (by rw [← hsel]; exact h5) (by rw [← hsel]; exact hrow)
    rw [← haddr] at h2
    exact ⟨_, h1, h2⟩
  · have h1 := buildCommand_lt5 s d1 (by omega)
    have h2 := buildCommand_lt5 s d2 (by rw [← hsel]; omega)
    rw [← hsel, ← haddr] at h2
    rcases h with h | h | h
    · rw [if_pos h] at h1 h2
      exact ⟨_, h1, h2⟩
    · rw [if_neg (by omega), if_neg (by omega), if_neg (by omega), if_pos h] at h1 h2
      exact ⟨_, h1, h2⟩
    · rw [if_neg (by omega), if_neg (by omega), if_neg (by omega), if_neg (by omega)] at h1 h2
      exact ⟨_, h1, h2⟩

/-- C14, worked example: the frames `[0x82, 7, 3, 0]` and
`[0x82, 7, 3, 200, 31]` are decoded alike from the state with F0 on. -/
theorem buildCommand_speed_unused_witness :
    ∃ r, buildCommand serviceF0on (bytes [0x82, 7, 3, 0]) = .ok r ∧
      buildCommand serviceF0on (bytes [0x82, 7, 3, 200, 31]) = .ok r ∧ r.1 = "<f 3 145>" := by
  obtain ⟨r, h1, h2⟩ := buildCommand_speed_unused serviceF0on (bytes [0x82, 7, 3, 0])
    (bytes [0x82, 7, 3, 200, 31]) rfl rfl (Or.inl (by decide))
  refine ⟨r, h1, h2, ?_⟩
  have h3 : buildCommand serviceF0on (bytes [0x82, 7, 3, 0]) = .ok ("<f 3 145>", _) := rfl
  rw [h3] at h1
  simp only [Except.ok.injEq] at h1
  rw [← h1]

/-- What a decode that returns has changed: never the flags; not the slots
for a text frame or a selector 0 .. 4; for a selector 5 .. 30 at most the slot
that columns 2 and 3 of the selector's table row name. -/
theorem decode_effect_when_ok (s : ScratchService) (parms : GattWriteCallbackParams) :
    (∀ s' e, onDataWritten s parms = .ok (s', e) → s'.sensors = s.sensors) ∧
    ((parms.data 0).val = 0x81 ∨ ((parms.data 0).val = 0x82 ∧ (parms.data 1).val ≤ 4) →
      ∃ s' e, onDataWritten s parms = .ok (s', e) ∧ s'.functionGroups = s.functionGroups) ∧
    (parms.handle = s.rxCharacteristicHandle ∧ 0 < parms.len ∧ (parms.data 0).val = 0x82 ∧
        5 ≤ (parms.data 1).val ∧ (parms.data 1).val ≤ 30 →
      ∃ s' e, onDataWritten s parms = .ok (s', e) ∧
        ∀ (g : Fin 3) (p : Fin 5),
          ¬ ((g.val : Int) = column (parms.data 1).val 2 ∧
              (p.val : Int) = column (parms.data 1).val 3) →
          s'.functionGroups g p = s.functionGroups g p) := by
  refine ⟨?_, ?_, ?_⟩
  · intro s' e h
    by_cases hc : parms.handle = s.rxCharacteristicHandle ∧ parms.len > 0
    · by_cases h81 : (parms.data 0).val = 0x81
      · rw [onDataWritten_0x81 s parms hc.1 hc.2 h81] at h
        simp only [Except.ok.injEq, Prod.mk.injEq] at h
        rw [← h.1]
      · by_cases h82 : (parms.data 0).val = 0x82
        · cases hb : buildCommand s parms.data with
          | error err =>
            rw [onDataWritten_0x82_error s parms err hc.1 hc.2 h82 hb] at h
            cases h
          | ok r =>
            obtain ⟨text, s1⟩ := r
            obtain ⟨fg, rfl⟩ := buildCommand_state s s1 parms.data text hb
            rw [onDataWritten_0x82 s _ parms text hc.1 hc.2 h82 hb] at h
            simp only [Except.ok.injEq, Prod.mk.injEq] at h
            rw [← h.1]
        · rw [onDataWritten_other s parms (Or.inr ⟨h81, h82⟩)] at h
          simp only [Except.ok.injEq, Prod.mk.injEq] at h
          rw [← h.1]
    · rw [onDataWritten_other s parms (Or.inl hc)] at h
      simp only [Except.ok.injEq, Prod.mk.injEq] at h
      rw [← h.1]
  · intro h
    by_cases hc : parms.handle = s.rxCharacteristicHandle ∧ parms.len > 0
    · rcases h with h | ⟨hop, h4⟩
      · exact ⟨_, _, onDataWritten_0x81 s parms hc.1 hc.2 h, rfl⟩
      · exact ⟨_, _, onDataWritten_0x82 s s parms _ hc.1 hc.2 hop
          (buildCommand_lt5 s parms.data h4), rfl⟩
    · exact ⟨_, _, onDataWritten_other s parms (Or.inl hc), rfl⟩
  · rintro ⟨hh, hl, hop, h5, h30⟩
    obtain ⟨g0, p0, bit, fg, hg, hp, -, -, -, -, hfg, hb⟩ :=
      buildCommand_feature s parms.data h5 (by omega)
    refine ⟨_, _, onDataWritten_0x82 s _ parms _ hh hl hop hb, ?_⟩
    intro g p hne
    show fg g p = s.functionGroups g p
    rw [hfg]
    unfold arraySet
    by_cases e1 : g = g0
    · subst e1
      have e2 : ¬ p = p0 := by
        intro e2
        subst e2
        exact hne ⟨hg, hp⟩
      rw [if_pos rfl, if_neg e2]
    · rw [if_neg e1]

/-- Every write but a 0x82 frame with selector 32 or more is decoded to the
end, and with the flags as they were. -/
theorem decode_returns (s : ScratchService) (parms : GattWriteCallbackParams)
    (h : ¬ (parms.handle = s.rxCharacteristicHandle ∧ 0 < parms.len ∧
      (parms.data 0).val = 0x82 ∧ 32 ≤ (parms.data 1).val)) :
    ∃ s' e, onDataWritten s parms = .ok (s', e) ∧ s'.sensors = s.sensors := by
  by_cases hc : parms.handle = s.rxCharacteristicHandle ∧ parms.len > 0
  · by_cases h81 : (parms.data 0).val = 0x81
    · exact ⟨_, _, onDataWritten_0x81 s parms hc.1 hc.2 h81, rfl⟩
    · by_cases h82 : (parms.data 0).val = 0x82
      · have h31 : (parms.data 1).val ≤ 31 := by
          by_contra hn
          exact h ⟨hc.1, hc.2, h82, by omega⟩
        by_cases h5 : (parms.data 1).val < 5
        · exact ⟨_, _, onDataWritten_0x82 s s parms _ hc.1 hc.2 h82
            (buildCommand_lt5 s parms.data (by omega)), rfl⟩
        · obtain ⟨g, p, bit, fg, -, -, -, -, -, -, -, hb⟩ :=
            buildCommand_feature s parms.data (by omega) h31
          exact ⟨_, _, onDataWritten_0x82 s _ parms _ hc.1 hc.2 h82 hb, rfl⟩
      · exact ⟨_, _, onDataWritten_other s parms (Or.inr ⟨h81, h82⟩), rfl⟩
  · exact ⟨_, _, onDataWritten_other s parms (Or.inl hc), rfl⟩

/-- C20: every write but a 0x82 frame with selector 32 or more is decoded to
the end with the flags as they were, and a decode that returns never changes
the flags; a text frame and a frame with selector 0 .. 4 leave all fifteen
slots as they were; a frame with selector 5 .. 30 leaves every slot as it was
but the one that columns 2 and 3 of the selector's table row name; a 0x82
frame with selector 32 or more written to the RX characteristic reads
`functionTable` outside its 32 rows, so that neither the cell written nor the
flags are under control. -/
theorem onDataWritten_frame_effect (s : ScratchService) (parms : GattWriteCallbackParams) :
    (∀ s' e, onDataWritten s parms = .ok (s', e) → s'.sensors = s.sensors) ∧
    ((parms.data 0).val = 0x81 ∨ ((parms.data 0).val = 0x82 ∧ (parms.data 1).val ≤ 4) →
      ∃ s' e, onDataWritten s parms = .ok (s', e) ∧ s'.functionGroups = s.functionGroups) ∧
    (parms.handle = s.rxCharacteristicHandle ∧ 0 < parms.len ∧ (parms.data 0).val = 0x82 ∧
        5 ≤ (parms.data 1).val ∧ (parms.data 1).val ≤ 30 →
      ∃ s' e, onDataWritten s parms = .ok (s', e) ∧
        ∀ (g : Fin 3) (p : Fin 5),
          ¬ ((g.val : Int) = column (parms.data 1).val 2 ∧
              (p.val : Int) = column (parms.data 1).val 3) →
          s'.functionGroups g p = s.functionGroups g p) ∧
    (¬ (parms.handle = s.rxCharacteristicHandle ∧ 0 < parms.len ∧
        (parms.data 0).val = 0x82 ∧ 32 ≤ (parms.data 1).val) →
      ∃ s' e, onDataWritten s parms = .ok (s', e) ∧ s'.sensors = s.sensors) ∧
    (parms.handle = s.rxCharacteristicHandle ∧ 0 < parms.len ∧
        (parms.data 0).val = 0x82 ∧ 32 ≤ (parms.data 1).val →
      onDataWritten s parms = .error .tableIndexOutOfBounds) :=
  ⟨(decode_effect_when_ok s parms).1, (decode_effect_when_ok s parms).2.1,
    (decode_effect_when_ok s parms).2.2, decode_returns s parms,
    fun h => onDataWritten_0x82_error s parms _ h.1 h.2.1 h.2.2.1
      (buildCommand_ge32 s parms.data h.2.2.2)⟩

/-- C20, worked examples: the frame `[0x82, 7, 3]` written to `service0`
leaves every slot but slot 0 of group 0 as it was; the frame
`[0x82, 32, 3, 0]` makes the decode read row 32 of the 32-row table. -/
theorem onDataWritten_frame_effect_witness :
    (∃ s' e, onDataWritten service0 (writeOf 2 [0x82, 7, 3]) = .ok (s', e) ∧
      ∀ (g : Fin 3) (p : Fin 5), ¬ (g = 0 ∧ p = 0) →
        s'.functionGroups g p = service0.functionGroups g p) ∧
    onDataWritten service0 (writeOf 2 [0x82, 32, 3, 0]) = .error .tableIndexOutOfBounds := by
  refine ⟨?_, (onDataWritten_frame_effect service0 (writeOf 2 [0x82, 32, 3, 0])).2.2.2.2
    ⟨rfl, by decide, by decide, by decide⟩⟩
  obtain ⟨s', e, h, hs⟩ := (onDataWritten_frame_effect service0 (writeOf 2 [0x82, 7, 3])).2.2.1
    ⟨rfl, by decide, by decide, by decide, by decide⟩
  refine ⟨s', e, h, fun g p hne => hs g p ?_⟩
  have c2 : column ((writeOf 2 [0x82, 7, 3]).data 1).val 2 = 0 := by rfl
  have c3 : column ((writeOf 2 [0x82, 7, 3]).data 1).val 3 = 0 := by rfl
  rw [c2, c3]
  intro ⟨h1, h2⟩
  exact hne ⟨Fin.ext (by exact_mod_cast h1), Fin.ext (by exact_mod_cast h2)⟩


/-! ## The length of the command text -/

theorem writeCell_apply (fg : Fin 3 → Fin 5 → Int) (g0 : Fin 3) (p0 : Fin 5) (bit : Int)
    (g : Fin 3) (p : Fin 5) :
    arraySet fg g0 (arraySet (fg g0) p0 bit) g p =
      if g = g0 ∧ p = p0 then bit else fg g p := by
  unfold arraySet
  by_cases hg : g = g0
  · subst hg
    by_cases hp : p = p0
    · rw [if_pos rfl, if_pos hp, if_pos ⟨rfl, hp⟩]
    · rw [if_pos rfl, if_neg hp, if_neg (fun h => hp h.2)]
  · rw [if_neg hg, if_neg (fun h => hg h.1)]

/-- Every slot of an accumulator that can arise lies between 0 and 16. -/
theorem reachableGroups_small (fg : Fin 3 → Fin 5 → Int) (h : ReachableGroups fg) :
    ∀ g p, 0 ≤ fg g p ∧ fg g p ≤ 16 := by
  induction h with
  | zero =>
    intro g p
    show (0 : Int) ≤ 0 ∧ (0 : Int) ≤ 16
    omega
  | step s s' data text _ h31 hb ih =>
    by_cases h5 : (data 1).val < 5
    · rw [buildCommand_lt5 s data (by omega)] at hb
      simp only [Except.ok.injEq, Prod.mk.injEq] at hb
      rw [← hb.2]
      exact ih
    · obtain ⟨g0, p0, bit, fg', -, -, hb0, hb16, -, -, hfg, hb'⟩ :=
        buildCommand_feature s data (by omega) h31
      rw [hb'] at hb
      simp only [Except.ok.injEq, Prod.mk.injEq] at hb
      rw [← hb.2]
      intro g p
      show 0 ≤ fg' g p ∧ fg' g p ≤ 16
      rw [hfg, writeCell_apply]
      have := ih g p
      split
      · exact ⟨hb0, hb16⟩
      · exact this

theorem repr_length_byte (b : uint8_t) : (Nat.repr b.val).length ≤ 3 :=
  Nat.repr_length b.val 3 (by decide) (by have := b.isLt; omega)

theorem repr_length_speed (b : uint8_t) : (Nat.repr (b.val * 4)).length ≤ 4 :=
  Nat.repr_length (b.val * 4) 4 (by decide) (by have := b.isLt; omega)

theorem sprintf_d_length_small (v : Int) (h0 : 0 ≤ v) (h : v ≤ 999) :
    (sprintf_d v).length ≤ 3 := by
  obtain ⟨n, rfl⟩ := Int.eq_ofNat_of_zero_le h0
  rw [sprintf_d_natCast]
  exact Nat.repr_length n 3 (by decide) (by omega)

/-- C19: in a service whose accumulator can arise from the all-zero one by
frames with selectors 0 .. 31, `buildCommand` on a frame with selector
0 .. 31 returns a text of at most 19 characters, which with its terminator
fits the 20 characters of the local `command`. -/
theorem buildCommand_text_length (s : ScratchService) (data : Nat → uint8_t)
    (hr : ReachableGroups s.functionGroups) (h31 : (data 1).val ≤ 31) :
    ∃ text s', buildCommand s data = .ok (text, s') ∧ text.length ≤ 19 := by
  have ha := repr_length_byte (data 2)
  have hsp := repr_length_speed (data 3)
  by_cases h5 : (data 1).val < 5
  · refine ⟨_, _, buildCommand_lt5 s data (by omega), ?_⟩
    split_ifs <;> simp only [String.length_append] <;>
      first
      | (have e1 : "<t 1 ".length = 5 := rfl
         have e2 : " 0 0>".length = 5 := rfl
         omega)
      | (have e1 : "<t 1 ".length = 5 := rfl
         have e2 : " ".length = 1 := rfl
         have e3 : " 1>".length = 3 := rfl
         omega)
      | (have e1 : "<t 1 ".length = 5 := rfl
         have e2 : " ".length = 1 := rfl
         have e3 : " 0>".length = 3 := rfl
         omega)
      | (have e1 : "<a ".length = 3 := rfl
         have e2 : " 0 0>".length = 5 := rfl
         omega)
      | (have e1 : "<a ".length = 3 := rfl
         have e2 : " 0 1>".length = 5 := rfl
         omega)
  · obtain ⟨g, p, bit, fg, -, -, hb0, hb16, hc0, hc176, hfg, hb⟩ :=
      buildCommand_feature s data (by omega) h31
    have hsmall : ∀ q, 0 ≤ fg g q ∧ fg g q ≤ 16 := by
      intro q
      have := reachableGroups_small _ hr g q
      rw [hfg, writeCell_apply]
      split
      · exact ⟨hb0, hb16⟩
      · exact this
    have h0 := hsmall 0
    have h1 := hsmall 1
    have h2 := hsmall 2
    have h3 := hsmall 3
    have h4 := hsmall 4
    rw [int32_sum5 _ _ _ _ _ _ ⟨hc0, hc176⟩ (by omega) (by omega) (by omega) (by omega)
      (by omega)] at hb
    refine ⟨_, _, hb, ?_⟩
    have hl := sprintf_d_length_small
      (column (data 1).val 0 + (fg g 0 + fg g 1 + fg g 2 + fg g 3 + fg g 4)) (by omega) (by omega)
    simp only [String.length_append]
    have e1 : "<f ".length = 3 := rfl
    have e2 : " ".length = 1 := rfl
    have e3 : ">".length = 1 := rfl
    omega

/-- C19, worked example: with F1 on, the frame `[0x82, 1, 255, 255]` gives
the 16 characters `<t 1 255 1020 1>`. -/
theorem buildCommand_text_length_witness :
    ReachableGroups serviceF1on.functionGroups ∧
    buildCommand serviceF1on (bytes [0x82, 1, 255, 255]) =
      .ok ("<t 1 255 1020 1>", serviceF1on) ∧
    ∃ text s', buildCommand serviceF1on (bytes [0x82, 1, 255, 255]) = .ok (text, s') ∧
      text.length ≤ 19 := by
  have hr : ReachableGroups serviceF1on.functionGroups := by
    have e : serviceF1on.functionGroups =
        arraySet service0.functionGroups 0 (arraySet (service0.functionGroups 0) 0 1) := by
      funext g p; fin_cases g <;> fin_cases p <;> rfl
    rw [e]
    exact ReachableGroups.step service0 _ (bytes [0x82, 7, 3]) "<f 3 129>"
      ReachableGroups.zero (by decide) rfl
  exact ⟨hr, rfl, buildCommand_text_length serviceF1on (bytes [0x82, 1, 255, 255]) hr
    (by decide)⟩


/-! ## The image shown on the display -/

theorem rows_length {α : Type} (f : Nat → Nat → α) :
    ∀ (n start : Nat),
      ((List.range' start n).flatMap (fun y => (List.range 5).map (f y))).length = 5 * n := by
  intro n
  induction n with
  | zero => intro start; simp
  | succ n ih =>
    intro start
    rw [List.range'_succ, List.flatMap_cons, List.length_append, ih]
    simp
    omega

/-- Entry `5 * k + x` of the list built by the two nested loops is the one
for row `start + k` and column `x`. -/
theorem rows_getElem? {α : Type} (f : Nat → Nat → α) :
    ∀ (n start k x : Nat), k < n → x < 5 →
      ((List.range' start n).flatMap (fun y => (List.range 5).map (f y)))[5 * k + x]?
        = some (f (start + k) x) := by
  intro n
  induction n with
  | zero => intro start k x hk; omega
  | succ n ih =>
    intro start k x hk hx
    rw [List.range'_succ, List.flatMap_cons]
    cases k with
    | zero =>
      rw [List.getElem?_append_left (by simpa using hx)]
      simp [List.getElem?_range hx]
    | succ k =>
      rw [List.getElem?_append_right (by simp; omega)]
      have e : 5 * (k + 1) + x - ((List.range 5).map (f start)).length = 5 * k + x := by
        simp; omega
      rw [e, ih (start + 1) k x (by omega) hx]
      congr 2
      omega

/-- The test `b & (0x01 << x)` of the pixel loop is the test of bit `x` of `b`. -/
theorem bit_test (b x : Nat) :
    (b &&& ((0x01 : Nat) <<< x) ≠ 0) ↔ b.testBit x = true := by
  rw [Nat.one_shiftLeft]
  constructor
  · intro h
    by_contra hb
    apply h
    apply Nat.eq_of_testBit_eq
    intro i
    rw [Nat.testBit_and, Nat.testBit_two_pow, Nat.zero_testBit]
    by_cases e : x = i
    · subst e
      simp [hb]
    · simp [e]
  · intro hb h
    have h2 : (b &&& 2 ^ x).testBit x = true := by
      rw [Nat.testBit_and, Nat.testBit_two_pow_self, hb]
      rfl
    rw [h, Nat.zero_testBit] at h2
    cases h2


theorem pixelWrites_length (parms : GattWriteCallbackParams) :
    (pixelWrites parms).length = 5 * (parms.len - 1) := by
  unfold pixelWrites
  exact rows_length _ _ _

theorem pixelWrites_getElem? (parms : GattWriteCallbackParams) (y x : Nat)
    (h1 : 1 ≤ y) (hy : y < parms.len) (hx : x < 5) :
    (pixelWrites parms)[5 * (y - 1) + x]? =
      some (Effect.setPixelValue (x : Int) ((y : Int) - 1)
        (if (parms.data y).val.testBit x = true then 255 else 0)) := by
  unfold pixelWrites
  rw [rows_getElem? _ (parms.len - 1) 1 (y - 1) x (by omega) hx]
  have e : 1 + (y - 1) = y := by omega
  rw [e]
  by_cases hb : (parms.data y).val.testBit x = true
  · rw [if_pos hb, if_pos ((bit_test _ _).mpr hb)]
  · rw [if_neg hb, if_neg (fun h => hb ((bit_test _ _).mp h))]

/-- C18 as the code has it: for a 0x82 frame with selector 0 .. 31 the pixel
writes come from every byte after the opcode: the byte at frame index `y`,
for `y` from 1 below `len`, is bitmap row `y - 1`, so the selector, address
and speedRaw bytes are rows 0, 1 and 2; pixel `(x, y - 1)` is set to 255 when
bit `x` of that byte is 1 and to 0 otherwise, one write per pixel in row
order; the writes are the same whatever the service and the text built. -/
theorem onDataWritten_pixels (s : ScratchService) (parms : GattWriteCallbackParams)
    (hh : parms.handle = s.rxCharacteristicHandle) (hl : 0 < parms.len)
    (hop : (parms.data 0).val = 0x82) (h31 : (parms.data 1).val ≤ 31) :
    (∃ s', onDataWritten s parms = .ok (s',
      [Effect.stopAnimation, Effect.event SCRATCH_TRAIN_ID SCRATCH_TRAIN_EVT_INPUT]
        ++ pixelWrites parms)) ∧
    (pixelWrites parms).length = 5 * (parms.len - 1) ∧
    ∀ y x, 1 ≤ y → y < parms.len → x < 5 →
      (pixelWrites parms)[5 * (y - 1) + x]? =
        some (Effect.setPixelValue (x : Int) ((y : Int) - 1)
          (if (parms.data y).val.testBit x = true then 255 else 0)) := by
  refine ⟨?_, pixelWrites_length parms, fun y x => pixelWrites_getElem? parms y x⟩
  by_cases h5 : (parms.data 1).val < 5
  · exact ⟨_, onDataWritten_0x82 s s parms _ hh hl hop (buildCommand_lt5 s parms.data (by omega))⟩
  · obtain ⟨g, p, bit, fg, -, -, -, -, -, -, -, hb⟩ :=
      buildCommand_feature s parms.data (by omega) h31
    exact ⟨_, onDataWritten_0x82 s _ parms _ hh hl hop hb⟩

/-- C18, worked example: in the frame `[0x82, 1, 7, 10, 0x15]` the selector
byte 1 is row 0 (pixel (0, 0) on, pixel (1, 0) off) and the byte 0x15 at
index 4 is row 3 (pixel (2, 3) on). -/
theorem onDataWritten_pixels_witness :
    (pixelWrites (writeOf 2 [0x82, 1, 7, 10, 0x15])).length = 20 ∧
    (pixelWrites (writeOf 2 [0x82, 1, 7, 10, 0x15]))[0]? = some (Effect.setPixelValue 0 0 255) ∧
    (pixelWrites (writeOf 2 [0x82, 1, 7, 10, 0x15]))[1]? = some (Effect.setPixelValue 1 0 0) ∧
    (pixelWrites (writeOf 2 [0x82, 1, 7, 10, 0x15]))[17]? =
      some (Effect.setPixelValue 2 3 255) := by
  have h := onDataWritten_pixels service0 (writeOf 2 [0x82, 1, 7, 10, 0x15]) rfl
    (by decide) (by decide) (by decide)
  refine ⟨h.2.1, ?_, ?_, ?_⟩
  · exact (h.2.2 1 0 (by decide) (by decide) (by decide)).trans (by rfl)
  · exact (h.2.2 1 1 (by decide) (by decide) (by decide)).trans (by rfl)
  · exact (h.2.2 4 2 (by decide) (by decide) (by decide)).trans (by rfl)

/-- C18 as stated fails: the frame `[0x82, 1, 7, 10]` has no byte after
speedRaw, yet its selector, address and speedRaw bytes are written to the
display as rows 0, 1 and 2. -/
theorem pixels_from_command_bytes :
    ∃ s' e, onDataWritten service0 (writeOf 2 [0x82, 1, 7, 10]) = .ok (s', e) ∧
      e.length = 17 ∧
      Effect.setPixelValue 0 0 255 ∈ e ∧ Effect.setPixelValue 2 1 255 ∈ e ∧
      Effect.setPixelValue 3 2 255 ∈ e := by
  refine ⟨_, _, onDataWritten_0x82 service0 service0 (writeOf 2 [0x82, 1, 7, 10])
    "<t 1 7 40 1>" rfl (by decide) (by decide) rfl, ?_, ?_, ?_, ?_⟩ <;> decide

/-! ## The slots of the features -/

/-- C21 as the code has it: column 3 of the rows of a feature is the bit
position of the feature's bit value. In group 0, F1, F2, F3 and F4 have slots
0, 1, 2 and 3 and F0 has slot 4 (selectors 5 and 6 name slot 4, 7 and 8 slot
0, 9 and 10 slot 1, 11 and 12 slot 2, 13 and 14 slot 3); F5 .. F8 and
F9 .. F12 have the consecutive slots 0 .. 3 of groups 1 and 2; the "on" and
the "off" selector of a feature name the same slot. -/
theorem functionTable_slots :
    (List.range' 5 10).map (fun selector => tableAt selector 3) =
      [4, 4, 0, 0, 1, 1, 2, 2, 3, 3].map Except.ok ∧
    (List.range' 15 8).map (fun selector => tableAt selector 3) =
      [0, 0, 1, 1, 2, 2, 3, 3].map Except.ok ∧
    (List.range' 23 8).map (fun selector => tableAt selector 3) =
      [0, 0, 1, 1, 2, 2, 3, 3].map Except.ok ∧
    (List.range 13).all (fun f =>
      decide (tableAt (5 + 2 * f) 3 = tableAt (6 + 2 * f) 3) &&
      decide (tableAt (5 + 2 * f) 2 = tableAt (6 + 2 * f) 2) &&
      decide (tableAt (5 + 2 * f) 1 =
        (tableAt (5 + 2 * f) 3).map (fun slot => (2 : Int) ^ slot.toNat))) = true := by
  decide

/-- C21 as stated fails: the rows of F0 (selectors 5 and 6) name slot 4, not
slot 0, and the rows of F1 (selectors 7 and 8) name slot 0, not slot 1, so
the slots of selectors 5 .. 14 are not 0, 0, 1, 1, 2, 2, 3, 3, 4, 4. -/
theorem f0_not_in_slot0 :
    tableAt 5 3 = .ok 4 ∧ tableAt 6 3 = .ok 4 ∧ tableAt 7 3 = .ok 0 ∧ tableAt 8 3 = .ok 0 ∧
    ¬ ((List.range' 5 10).map (fun selector => tableAt selector 3) =
      [0, 0, 1, 1, 2, 2, 3, 3, 4, 4].map Except.ok) := by
  decide

end ScratchTrain
